import Mathlib

set_option maxRecDepth 4000

/-!
Shallow embedding of the pagination-and-aggregation engine of `src/reddit.py`
(class `Reddit`): the paginated fetcher `util_get`, the record normalizer
`transform_df`, and the time-window aggregator `subreddit_top`, together with
theorems checking the natural-language specification against this code.

JSON values are modelled by the inductive `J`; Python dictionaries by
association lists; the mock HTTP server by the finite list of `Response`s it
serves, consumed in request order.
-/

/-- A JSON value, as produced by `r.json()` in the source. -/
inductive J : Type where
  | num  (n : Int)
  | str  (s : String)
  | bool (b : Bool)
  | null
  | arr  (xs : List J)
  | obj  (fields : List (String × J))

/-- Is this JSON value `null`?  (`requests` omits query parameters whose value
is `None` from the issued URL.) -/
def jIsNull : J → Bool
  | J.null => true
  | _ => false

/-- Python truthiness of a JSON value (`while after:` in `util_get`). -/
def jTruthy : J → Bool
  | J.num n   => n != 0
  | J.str s   => s != ""
  | J.bool b  => b
  | J.null    => false
  | J.arr xs  => !xs.isEmpty
  | J.obj fs  => !fs.isEmpty

/-- First-match association-list lookup: Python `d[k]` / `d.get(k)` on a dict
represented as an ordered list of key-value pairs. -/
def alookup {α : Type} : List (String × α) → String → Option α
  | [], _ => none
  | (k', v) :: t, k => if k' = k then some v else alookup t k

/-- Python `d[k] = v` on a dict: replace the value at the first occurrence of
the key, keeping its position, or append the pair if the key is absent. -/
def insertReplace {α : Type} : List (String × α) → String → α → List (String × α)
  | [], k, v => [(k, v)]
  | (k', w) :: t, k, v =>
    if k' = k then (k, v) :: t else (k', w) :: insertReplace t k v

/-- Python `list.index` semantics: position of the first occurrence. -/
def listIndex : List String → String → Option Nat
  | [], _ => none
  | x :: t, s => if x = s then some 0 else (listIndex t s).map (· + 1)

/-- Union of the keys seen across all rows, in first-seen order: the column
set `pandas.DataFrame` builds from a list of dicts. -/
def dedupKeys (ks : List String) : List String :=
  ks.foldl (fun acc k => if acc.contains k then acc else acc ++ [k]) []

/-- The exceptions the modelled code can raise.  The source raises plain
Python exceptions; the spec's taxonomy names classes of them, recovered below
by `isMalformedResponseError` and `isInvalidWindowError`. -/
inductive Err : Type where
  | keyError (k : String)     -- Python KeyError: missing dict key / column
  | typeError                 -- Python TypeError: operation on a wrong type
  | nanTimestamp              -- Python ValueError: datetime.fromtimestamp(NaN)
  | notInList (s : String)    -- Python ValueError from list.index
deriving DecidableEq, Repr

/-- The spec's `MalformedResponseError`: unexpected JSON shape, e.g. a missing
epoch field (KeyError / TypeError / ValueError raised while normalizing a
response body). -/
def isMalformedResponseError : Err → Bool
  | Err.keyError _ => true
  | Err.typeError => true
  | Err.nanTimestamp => true
  | Err.notInList _ => false

/-- The spec's `InvalidWindowError`: the ValueError `list.index` raises for a
starting window that is not in the window list. -/
def isInvalidWindowError : Err → Bool
  | Err.notInList _ => true
  | _ => false

/-- Is an HTTP status a success (2xx) status? -/
def isSuccessStatus (n : Nat) : Bool := 200 ≤ n && n < 300

/-- A local-time instant, as produced by `datetime.datetime.fromtimestamp`:
within one run (fixed local timezone) it is a deterministic, injective image
of the epoch value. -/
structure LocalInstant : Type where
  epoch : Int
deriving DecidableEq, Repr

/-- `datetime.datetime.fromtimestamp` on an epoch-seconds value. -/
def datetime_fromtimestamp (e : Int) : LocalInstant := ⟨e⟩

/-- Python `x[k]` on a JSON value: a key lookup that raises KeyError when the
key is absent and TypeError when the value is not an object. -/
def getField : J → String → Except Err J
  | J.obj fs, k =>
    match alookup fs k with
    | some v => Except.ok v
    | none => Except.error (Err.keyError k)
  | _, _ => Except.error Err.typeError

/-- One element of `r_json["data"]["children"]`: `item["data"]`, which must be
an object to become a DataFrame row. -/
def childData (child : J) : Except Err (List (String × J)) :=
  match getField child "data" with
  | Except.error e => Except.error e
  | Except.ok (J.obj fs) => Except.ok fs
  | Except.ok _ => Except.error Err.typeError

/-- `[item["data"] for item in children]`, left to right, first failure wins. -/
def childrenData : List J → Except Err (List (List (String × J)))
  | [] => Except.ok []
  | c :: rest =>
    match childData c with
    | Except.error e => Except.error e
    | Except.ok fs =>
      match childrenData rest with
      | Except.error e => Except.error e
      | Except.ok t => Except.ok (fs :: t)

/-- `[item["data"] for item in r_json["data"]["children"]]`: the row dicts the
DataFrame in `transform_df` is built from. -/
def extractDatas (body : J) : Except Err (List (List (String × J))) :=
  match getField body "data" with
  | Except.error e => Except.error e
  | Except.ok payload =>
    match getField payload "children" with
    | Except.error e => Except.error e
    | Except.ok (J.arr cs) => childrenData cs
    | Except.ok _ => Except.error Err.typeError

/-- The DataFrame's columns: union of the row dicts' keys, first-seen order. -/
def unionKeys (datas : List (List (String × J))) : List String :=
  dedupKeys (datas.flatMap (fun d => d.map Prod.fst))

/-- One DataFrame row over a fixed column list: a cell holds the dict's value
for that column, or NaN (here `none`) when the dict lacks the key. -/
def rowOf (keys : List String) (d : List (String × J)) : List (String × Option J) :=
  keys.map (fun k => (k, alookup d k))

/-- `df["created_utc"].apply(lambda x: dt.datetime.fromtimestamp(x))`, row by
row: a missing key is a NaN cell (ValueError in `fromtimestamp`), a bool is
accepted (Python bools are ints), anything else raises TypeError. -/
def timestampsOf : List (List (String × J)) → Except Err (List LocalInstant)
  | [] => Except.ok []
  | d :: rest =>
    match alookup d "created_utc" with
    | none => Except.error Err.nanTimestamp
    | some (J.num n) =>
      match timestampsOf rest with
      | Except.error e => Except.error e
      | Except.ok t => Except.ok (datetime_fromtimestamp n :: t)
    | some (J.bool b) =>
      match timestampsOf rest with
      | Except.error e => Except.error e
      | Except.ok t => Except.ok (datetime_fromtimestamp (if b then 1 else 0) :: t)
    | some _ => Except.error Err.typeError

/-- A normalized record: one row of the DataFrame `transform_df` returns — the
derived `timestamp` column plus the row's cells for the original columns. -/
structure Rec : Type where
  timestamp : LocalInstant
  row : List (String × Option J)

/-- `Reddit.transform_df`: build a DataFrame from the children's `data` dicts
and derive the `timestamp` column from `created_utc`.  Looking up the
`created_utc` column raises KeyError when no row has the key (also for an
empty children list). -/
def transform_df (body : J) : Except Err (List Rec) :=
  match extractDatas body with
  | Except.error e => Except.error e
  | Except.ok datas =>
    let keys := unionKeys datas
    if keys.contains "created_utc" then
      match timestampsOf datas with
      | Except.error e => Except.error e
      | Except.ok ts =>
        Except.ok (List.zipWith (fun d t => { timestamp := t, row := rowOf keys d }) datas ts)
    else Except.error (Err.keyError "created_utc")

/-- `r.json()["data"]["after"]`: the continuation cursor harvested from a
response body. -/
def afterOf (body : J) : Except Err J :=
  match getField body "data" with
  | Except.error e => Except.error e
  | Except.ok payload => getField payload "after"

/-- One mock HTTP response: status, parsed JSON body (`r.json()`), headers. -/
structure Response : Type where
  status : Nat
  body : J
  headers : List (String × String)

/-- A query-parameter dict, in insertion order (Python dicts are ordered). -/
def Params : Type := List (String × J)

/-- The query actually issued by `requests.get`: parameters whose value is
`None` are omitted from the URL. -/
def issuedQuery (params : Params) : Params :=
  List.filter (fun kv => !jIsNull kv.2) params

/-- How one call of `util_get` ends. -/
inductive Outcome : Type where
  | ranOut                     -- the loop issued a request the page list cannot answer
  | failed (e : Err)           -- an exception propagated out of the loop
  | done (table : List Rec)    -- the loop terminated and returned `pd.concat(result)`

/-- What one call of `util_get` did: the queries it issued in order, the final
state of the caller's `params` dict (mutated in place), and how it ended. -/
structure FetchOut : Type where
  requests : List Params
  finalParams : Params
  outcome : Outcome

/-- The `while after:` loop of `Reddit.util_get`, run against the finite list
of responses a mock server serves in request order.  Loop body, as in the
source: write `after` into `params`, issue the request, normalize the body and
append it, harvest the next cursor, read the two rate-limit headers for the
progress print (a missing header is a KeyError). -/
def utilGetLoop : List Response → Params → J → List Rec → List Params → FetchOut
  | [], params, after, acc, reqs =>
    if jTruthy after then
      ⟨reqs ++ [issuedQuery (insertReplace params "after" after)],
       insertReplace params "after" after, Outcome.ranOut⟩
    else ⟨reqs, params, Outcome.done acc⟩
  | r :: rest, params, after, acc, reqs =>
    if jTruthy after then
      let params' := insertReplace params "after" after
      let reqs' := reqs ++ [issuedQuery params']
      match transform_df r.body with
      | Except.error e => ⟨reqs', params', Outcome.failed e⟩
      | Except.ok recs =>
        match afterOf r.body with
        | Except.error e => ⟨reqs', params', Outcome.failed e⟩
        | Except.ok a' =>
          match alookup r.headers "x-ratelimit-remaining" with
          | none => ⟨reqs', params', Outcome.failed (Err.keyError "x-ratelimit-remaining")⟩
          | some _ =>
            match alookup r.headers "x-ratelimit-reset" with
            | none => ⟨reqs', params', Outcome.failed (Err.keyError "x-ratelimit-reset")⟩
            | some _ => utilGetLoop rest params' a' (acc ++ recs) reqs'
    else ⟨reqs, params, Outcome.done acc⟩

/-- `Reddit.util_get`: paginate from the first-page sentinel `after = True`
(a Python boolean) to cursor exhaustion, accumulating normalized pages. -/
def util_get (pages : List Response) (params : Params) : FetchOut :=
  utilGetLoop pages params (J.bool true) [] []

/-- The records a response contributes to the table (meaningful when
`transform_df` succeeds on it). -/
def pageRecs (r : Response) : List Rec :=
  match transform_df r.body with
  | Except.ok recs => recs
  | Except.error _ => []

/-- The cursor a response carries (meaningful when `afterOf` succeeds). -/
def cursorD (r : Response) : J :=
  match afterOf r.body with
  | Except.ok a => a
  | Except.error _ => J.null

/-- A response the loop body gets through without an exception: body
normalizes, cursor present, both rate-limit headers present. -/
def pageOkF (r : Response) : Bool :=
  (match transform_df r.body with | Except.ok _ => true | Except.error _ => false)
  && (match afterOf r.body with | Except.ok _ => true | Except.error _ => false)
  && (alookup r.headers "x-ratelimit-remaining").isSome
  && (alookup r.headers "x-ratelimit-reset").isSome

/-- A page sequence `util_get` consumes exactly: every page is clean, every
page before the last carries a truthy cursor, the last page's cursor is falsy
(Python truthiness), so the loop stops there. -/
def chain : List Response → Bool
  | [] => false
  | r :: rest =>
    pageOkF r &&
      (match rest with
       | [] => !jTruthy (cursorD r)
       | _ :: _ => jTruthy (cursorD r) && chain rest)

/-- Like `chain`, but the last page's cursor is literally `null` (the end-of-
listing sentinel the upstream API uses). -/
def chainN : List Response → Bool
  | [] => false
  | r :: rest =>
    pageOkF r &&
      (match rest with
       | [] => (match cursorD r with | J.null => true | _ => false)
       | _ :: _ => jTruthy (cursorD r) && chainN rest)

/-- The values the loop writes into `params["after"]`, one per issued request:
the sentinel `True` first, then each harvested cursor except the last. -/
def afterSeq (a0 : J) (pages : List Response) : List J :=
  a0 :: pages.dropLast.map cursorD

/-- The last value written into `params["after"]` over a run that consumes all
its pages: the cursor of the second-to-last page (the sentinel if there is at
most one page). -/
def lastAfter (a0 : J) : List Response → J
  | [] => a0
  | [_] => a0
  | r :: s :: rest => lastAfter (cursorD r) (s :: rest)

/-- `Reddit.limit`: the fixed page size. -/
def limit : Int := 100

/-- `Reddit.top_list`: the window granularities, coarsest to finest. -/
def top_list : List String := ["all", "year", "month", "week", "day", "hour"]

/-- The fresh parameter dict `subreddit_top` builds for one window:
`dict(t=top, limit=self.limit, show="all")`. -/
def topParams (top : String) : Params :=
  [("t", J.str top), ("limit", J.num limit), ("show", J.str "all")]

/-- The parameter dict `Reddit.subreddit` builds:
`dict(limit=self.limit, show="all", after=None)`. -/
def subredditParams : Params :=
  [("limit", J.num limit), ("show", J.str "all"), ("after", J.null)]

/-- What one call of `subreddit_top` did: the windows for which it invoked the
fetcher, in order, and how it ended. -/
structure TopOut : Type where
  windows : List String
  outcome : Outcome

/-- The window loop of `Reddit.subreddit_top`: fetch each remaining window
with a fresh parameter dict, append the table, and break out of the loop as
soon as a window's table has fewer than 900 records.  `serve` gives the page
sequence the mock server answers for each window's fetch. -/
def topLoop (serve : String → List Response) : List String → List Rec → List String → TopOut
  | [], acc, ws => ⟨ws, Outcome.done acc⟩
  | w :: rest, acc, ws =>
    let ws' := ws ++ [w]
    match (util_get (serve w) (topParams w)).outcome with
    | Outcome.ranOut => ⟨ws', Outcome.ranOut⟩
    | Outcome.failed e => ⟨ws', Outcome.failed e⟩
    | Outcome.done tbl =>
      if tbl.length < 900 then ⟨ws', Outcome.done (acc ++ tbl)⟩
      else topLoop serve rest (acc ++ tbl) ws'

/-- `Reddit.subreddit_top`: slice `top_list` from the position of `upto`
(`list.index` raises ValueError when absent) and run the window loop; the
final `pd.concat` + `reset_index` is concatenation with a fresh contiguous
index, which the list model's append already is. -/
def subreddit_top (serve : String → List Response) (upto : String) : TopOut :=
  match listIndex top_list upto with
  | none => ⟨[], Outcome.failed (Err.notInList upto)⟩
  | some i => topLoop serve (top_list.drop i) [] []

/-- A listing item whose payload carries only the epoch field. -/
def mkItem (n : Int) : J :=
  J.obj [("data", J.obj [("created_utc", J.num n)])]

/-- A listing envelope body: `{data: {children: [...], after: cursor}}`. -/
def mkBody (children : List J) (after : J) : J :=
  J.obj [("data", J.obj [("children", J.arr children), ("after", after)])]

/-- The rate-limit headers every well-formed mock response carries. -/
def rlHeaders : List (String × String) :=
  [("x-ratelimit-remaining", "596.0"), ("x-ratelimit-reset", "372")]

/-- A mock response serving `k` one-field items and a given cursor. -/
def mkResp (status : Nat) (k : Nat) (after : J) : Response :=
  ⟨status, mkBody (List.replicate k (mkItem 1700000000)) after, rlHeaders⟩

/-- The record `transform_df` produces from `mkItem 1700000000`. -/
def mkRec : Rec :=
  { timestamp := datetime_fromtimestamp 1700000000,
    row := [("created_utc", some (J.num 1700000000))] }

/-- The two-page chain used as C1's witness. -/
def c1pages : List Response := [mkResp 200 1 (J.str "c1"), mkResp 200 1 J.null]

/-- The one-item page body used as C6's witness. -/
def c6body : J :=
  mkBody [J.obj [("data",
    J.obj [("created_utc", J.num 1700000000), ("title", J.str "hello")])]] J.null

/-- The record `transform_df` produces from `c6body`'s single item. -/
def c6rec : Rec :=
  { timestamp := datetime_fromtimestamp 1700000000,
    row := [("created_utc", some (J.num 1700000000)), ("title", some (J.str "hello"))] }

/-- The mock server used as C3's witness: every window fetch returns one page
with a single record and a null cursor. -/
def serveSmall : String → List Response := fun _ => [mkResp 200 1 J.null]

/-- The mock server used as C4's witness: every window fetch returns one page
with 900 records (at the early-stop threshold) and a null cursor. -/
def serve900 : String → List Response := fun _ => [mkResp 200 900 J.null]

/-- The two-page mock of the spec's end-to-end scenario: 100 records then 40
records, cursors `"x"` then null. -/
def c7pages : List Response := [mkResp 200 100 (J.str "x"), mkResp 200 40 J.null]

theorem insertReplace_insertReplace {α : Type} (l : List (String × α)) (k : String) (v w : α) :
    insertReplace (insertReplace l k v) k w = insertReplace l k w := by
  induction l with
  | nil => simp [insertReplace]
  | cons p t ih =>
    obtain ⟨k', u⟩ := p
    by_cases h : k' = k
    · subst h
      simp [insertReplace]
    · simp [insertReplace, h, ih]

theorem alookup_insertReplace_self {α : Type} (l : List (String × α)) (k : String) (v : α) :
    alookup (insertReplace l k v) k = some v := by
  induction l with
  | nil => simp [insertReplace, alookup]
  | cons p t ih =>
    obtain ⟨k', u⟩ := p
    by_cases h : k' = k
    · subst h
      simp [insertReplace, alookup]
    · simp [insertReplace, alookup, h, ih]

theorem alookup_insertReplace_of_ne {α : Type} (l : List (String × α)) (k k' : String) (v : α)
    (h : k' ≠ k) : alookup (insertReplace l k v) k' = alookup l k' := by
  induction l with
  | nil => simp [insertReplace, alookup, Ne.symm h]
  | cons p t ih =>
    obtain ⟨k₀, u⟩ := p
    by_cases h0 : k₀ = k
    · subst h0
      simp [insertReplace, alookup, Ne.symm h, h]
    · simp [insertReplace, alookup, h0, ih]

theorem alookup_issuedQuery_insertReplace (l : List (String × J)) (k : String) (v : J)
    (hv : jIsNull v = false) :
    alookup (issuedQuery (insertReplace l k v)) k = some v := by
  induction l with
  | nil => simp [insertReplace, issuedQuery, hv, alookup]
  | cons p t ih =>
    obtain ⟨k', u⟩ := p
    by_cases h : k' = k
    · subst h
      simp [insertReplace, issuedQuery, hv, alookup]
    · by_cases hu : jIsNull u = true
      · simp [insertReplace, issuedQuery, h, hu] at ih ⊢
        exact ih
      · rw [Bool.not_eq_true] at hu
        simp [insertReplace, issuedQuery, h, hu, alookup] at ih ⊢
        exact ih

theorem dropLast_cons_of_cons (r s : Response) (l : List Response) :
    (r :: s :: l).dropLast = r :: (s :: l).dropLast := rfl

/-- One successful pass through the loop body: write the cursor into `params`,
issue the request, append the page, continue with the harvested cursor. -/
theorem utilGetLoop_step (r : Response) (rest : List Response) (params : Params)
    (after : J) (acc : List Rec) (reqs : List Params) (recs : List Rec) (a' : J)
    (x1 x2 : String)
    (hta : jTruthy after = true)
    (htrans : transform_df r.body = Except.ok recs)
    (hafter : afterOf r.body = Except.ok a')
    (hx1 : alookup r.headers "x-ratelimit-remaining" = some x1)
    (hx2 : alookup r.headers "x-ratelimit-reset" = some x2) :
    utilGetLoop (r :: rest) params after acc reqs =
      utilGetLoop rest (insertReplace params "after" after) a' (acc ++ recs)
        (reqs ++ [issuedQuery (insertReplace params "after" after)]) := by
  simp only [utilGetLoop, hta, if_true, htrans, hafter, hx1, hx2]

/-- Full characterization of the `util_get` loop on a page chain it consumes
exactly: it terminates with the concatenation of the normalized pages, issues
one request per page (the `after` written before each request being the
incoming cursor, starting from the given sentinel), and leaves the caller's
dict with only its `after` key overwritten. -/
theorem utilGetLoop_chain :
    ∀ (pages : List Response), chain pages = true →
    ∀ (params : Params) (after : J), jTruthy after = true →
    ∀ (acc : List Rec) (reqs : List Params),
    utilGetLoop pages params after acc reqs =
      ⟨reqs ++ (afterSeq after pages).map (fun a => issuedQuery (insertReplace params "after" a)),
       insertReplace params "after" (lastAfter after pages),
       Outcome.done (acc ++ pages.flatMap pageRecs)⟩ := by
  intro pages
  induction pages with
  | nil => intro h; simp [chain] at h
  | cons r rest ih =>
    intro hch params after hta acc reqs
    simp only [chain, Bool.and_eq_true] at hch
    obtain ⟨hok, hrest⟩ := hch
    simp only [pageOkF, Bool.and_eq_true] at hok
    obtain ⟨⟨⟨htr, haf⟩, hh1⟩, hh2⟩ := hok
    obtain ⟨recs, htrans⟩ : ∃ recs, transform_df r.body = Except.ok recs := by
      cases h : transform_df r.body with
      | ok recs => exact ⟨recs, rfl⟩
      | error e => rw [h] at htr; simp at htr
    obtain ⟨a', hafter⟩ : ∃ a', afterOf r.body = Except.ok a' := by
      cases h : afterOf r.body with
      | ok a => exact ⟨a, rfl⟩
      | error e => rw [h] at haf; simp at haf
    obtain ⟨x1, hx1⟩ := Option.isSome_iff_exists.mp hh1
    obtain ⟨x2, hx2⟩ := Option.isSome_iff_exists.mp hh2
    have hcur : cursorD r = a' := by rw [cursorD, hafter]
    have hrecs : pageRecs r = recs := by rw [pageRecs, htrans]
    rw [utilGetLoop_step r rest params after acc reqs recs a' x1 x2 hta htrans hafter hx1 hx2]
    cases rest with
    | nil =>
      have hfalsy : jTruthy a' = false := by
        simp only [hcur] at hrest
        simpa using hrest
      simp only [utilGetLoop, hfalsy, Bool.false_eq_true, if_false]
      simp [afterSeq, lastAfter, hrecs]
    | cons s rest' =>
      rw [Bool.and_eq_true] at hrest
      obtain ⟨hta', hch'⟩ := hrest
      rw [hcur] at hta'
      rw [ih hch' (insertReplace params "after" after) a' hta' (acc ++ recs)
        (reqs ++ [issuedQuery (insertReplace params "after" after)])]
      have hfun :
          (fun a => issuedQuery (insertReplace (insertReplace params "after" after) "after" a))
            = (fun a => issuedQuery (insertReplace params "after" a)) := by
        funext a
        rw [insertReplace_insertReplace]
      have hseq : afterSeq after (r :: s :: rest') = after :: afterSeq a' (s :: rest') := by
        rw [afterSeq, afterSeq, dropLast_cons_of_cons, List.map_cons, hcur]
      have hlast : lastAfter after (r :: s :: rest') = lastAfter a' (s :: rest') := by
        rw [lastAfter, hcur]
      simp only [hfun, hseq, hlast, insertReplace_insertReplace, List.map_cons,
        List.flatMap_cons, hrecs, List.append_assoc, List.cons_append, List.nil_append,
        List.singleton_append]

theorem utilGetLoop_requests_extend :
    ∀ (pages : List Response) (params : Params) (after : J) (acc : List Rec)
      (reqs : List Params),
    ∃ ext, (utilGetLoop pages params after acc reqs).requests = reqs ++ ext := by
  intro pages
  induction pages with
  | nil =>
    intro params after acc reqs
    by_cases h : jTruthy after = true
    · exact ⟨[issuedQuery (insertReplace params "after" after)], by simp [utilGetLoop, h]⟩
    · exact ⟨[], by simp [utilGetLoop, h]⟩
  | cons r rest ih =>
    intro params after acc reqs
    by_cases h : jTruthy after = true
    · cases htr : transform_df r.body with
      | error e =>
        exact ⟨[issuedQuery (insertReplace params "after" after)], by simp [utilGetLoop, h, htr]⟩
      | ok recs =>
        cases haf : afterOf r.body with
        | error e =>
          exact ⟨[issuedQuery (insertReplace params "after" after)],
            by simp [utilGetLoop, h, htr, haf]⟩
        | ok a' =>
          cases hh1 : alookup r.headers "x-ratelimit-remaining" with
          | none =>
            exact ⟨[issuedQuery (insertReplace params "after" after)],
              by simp [utilGetLoop, h, htr, haf, hh1]⟩
          | some x1 =>
            cases hh2 : alookup r.headers "x-ratelimit-reset" with
            | none =>
              exact ⟨[issuedQuery (insertReplace params "after" after)],
                by simp [utilGetLoop, h, htr, haf, hh1, hh2]⟩
            | some x2 =>
              obtain ⟨ext, hext⟩ := ih (insertReplace params "after" after) a' (acc ++ recs)
                (reqs ++ [issuedQuery (insertReplace params "after" after)])
              refine ⟨issuedQuery (insertReplace params "after" after) :: ext, ?_⟩
              simp [utilGetLoop, h, htr, haf, hh1, hh2, hext]
    · exact ⟨[], by simp [utilGetLoop, h]⟩

theorem utilGetLoop_first_request :
    ∀ (pages : List Response) (params : Params) (after : J) (acc : List Rec)
      (reqs : List Params), jTruthy after = true →
    ∃ ext, (utilGetLoop pages params after acc reqs).requests =
      reqs ++ issuedQuery (insertReplace params "after" after) :: ext := by
  intro pages params after acc reqs h
  cases pages with
  | nil => exact ⟨[], by simp [utilGetLoop, h]⟩
  | cons r rest =>
    cases htr : transform_df r.body with
    | error e => exact ⟨[], by simp [utilGetLoop, h, htr]⟩
    | ok recs =>
      cases haf : afterOf r.body with
      | error e => exact ⟨[], by simp [utilGetLoop, h, htr, haf]⟩
      | ok a' =>
        cases hh1 : alookup r.headers "x-ratelimit-remaining" with
        | none => exact ⟨[], by simp [utilGetLoop, h, htr, haf, hh1]⟩
        | some x1 =>
          cases hh2 : alookup r.headers "x-ratelimit-reset" with
          | none => exact ⟨[], by simp [utilGetLoop, h, htr, haf, hh1, hh2]⟩
          | some x2 =>
            obtain ⟨ext, hext⟩ := utilGetLoop_requests_extend rest
              (insertReplace params "after" after) a' (acc ++ recs)
              (reqs ++ [issuedQuery (insertReplace params "after" after)])
            refine ⟨ext, ?_⟩
            simp [utilGetLoop, h, htr, haf, hh1, hh2, hext]

/-- C9: every call of the Paginated Fetcher `util_get` issues at least one
request (even on an empty or immediately-failing listing), and the first
request's query carries the continuation parameter `after` set to the
first-page sentinel — the Python boolean `True` — included in the issued query
rather than omitted. -/
theorem c9_first_request_sentinel (pages : List Response) (params : Params) :
    ∃ q qs, (util_get pages params).requests = q :: qs ∧
      alookup q "after" = some (J.bool true) := by
  obtain ⟨ext, hext⟩ := utilGetLoop_first_request pages params (J.bool true) [] [] rfl
  refine ⟨issuedQuery (insertReplace params "after" (J.bool true)), ext, ?_, ?_⟩
  · simpa using hext
  · exact alookup_issuedQuery_insertReplace params "after" (J.bool true) rfl

theorem utilGetLoop_params_congr (pages : List Response) (p₁ p₂ : Params) (after : J)
    (acc : List Rec) (reqs : List Params) (hta : jTruthy after = true)
    (h : insertReplace p₁ "after" after = insertReplace p₂ "after" after) :
    utilGetLoop pages p₁ after acc reqs = utilGetLoop pages p₂ after acc reqs := by
  cases pages with
  | nil => simp only [utilGetLoop, hta, if_true, h]
  | cons r rest => simp only [utilGetLoop, hta, if_true, h]

theorem utilGetLoop_finalParams_frame :
    ∀ (pages : List Response) (params : Params) (after : J) (acc : List Rec)
      (reqs : List Params) (k : String), k ≠ "after" →
    alookup (utilGetLoop pages params after acc reqs).finalParams k = alookup params k := by
  intro pages
  induction pages with
  | nil =>
    intro params after acc reqs k hk
    by_cases h : jTruthy after = true
    · simp [utilGetLoop, h, alookup_insertReplace_of_ne _ _ _ _ hk]
    · simp [utilGetLoop, h]
  | cons r rest ih =>
    intro params after acc reqs k hk
    by_cases h : jTruthy after = true
    · cases htr : transform_df r.body with
      | error e => simp [utilGetLoop, h, htr, alookup_insertReplace_of_ne _ _ _ _ hk]
      | ok recs =>
        cases haf : afterOf r.body with
        | error e => simp [utilGetLoop, h, htr, haf, alookup_insertReplace_of_ne _ _ _ _ hk]
        | ok a' =>
          cases hh1 : alookup r.headers "x-ratelimit-remaining" with
          | none => simp [utilGetLoop, h, htr, haf, hh1, alookup_insertReplace_of_ne _ _ _ _ hk]
          | some x1 =>
            cases hh2 : alookup r.headers "x-ratelimit-reset" with
            | none =>
              simp [utilGetLoop, h, htr, haf, hh1, hh2, alookup_insertReplace_of_ne _ _ _ _ hk]
            | some x2 =>
              have := ih (insertReplace params "after" after) a' (acc ++ recs)
                (reqs ++ [issuedQuery (insertReplace params "after" after)]) k hk
              simp only [utilGetLoop, h, if_true, htr, haf, hh1, hh2]
              rw [this, alookup_insertReplace_of_ne _ _ _ _ hk]
    · simp [utilGetLoop, h]

/-- C10: `util_get` owns the `after` key of the caller's `params` dict — it
overwrites it before the first request, so two calls whose `params` differ
only in a pre-set `after` value behave identically (same issued requests, same
table, same final dict), and the dict's other keys are left unchanged by the
in-place mutation. -/
theorem c10_params_frame (pages : List Response) (params : Params) (v w : J)
    (k : String) (hk : k ≠ "after") :
    util_get pages (insertReplace params "after" v)
        = util_get pages (insertReplace params "after" w)
    ∧ alookup (util_get pages params).finalParams k = alookup params k := by
  constructor
  · exact utilGetLoop_params_congr pages _ _ (J.bool true) [] [] rfl
      (by rw [insertReplace_insertReplace, insertReplace_insertReplace])
  · exact utilGetLoop_finalParams_frame pages params (J.bool true) [] [] k hk

/-- Witness for `c10_params_frame` at a concrete call. -/
theorem c10_witness :
    ("limit" ≠ "after")
    ∧ (util_get [mkResp 200 1 J.null]
          (insertReplace [("limit", J.num 100)] "after" (J.str "abc"))
        = util_get [mkResp 200 1 J.null]
          (insertReplace [("limit", J.num 100)] "after" J.null)
    ∧ alookup (util_get [mkResp 200 1 J.null] [("limit", J.num 100)]).finalParams "limit"
        = alookup [("limit", J.num 100)] "limit") :=
  ⟨by decide, c10_params_frame [mkResp 200 1 J.null] [("limit", J.num 100)]
    (J.str "abc") J.null "limit" (by decide)⟩

theorem utilGetLoop_status_ignored :
    ∀ (pages : List Response) (f : Nat → Nat) (params : Params) (after : J)
      (acc : List Rec) (reqs : List Params),
    utilGetLoop (pages.map (fun r => ⟨f r.status, r.body, r.headers⟩)) params after acc reqs
      = utilGetLoop pages params after acc reqs := by
  intro pages
  induction pages with
  | nil => intro f params after acc reqs; rfl
  | cons r rest ih =>
    intro f params after acc reqs
    by_cases h : jTruthy after = true
    · cases htr : transform_df r.body with
      | error e => simp [utilGetLoop, h, htr]
      | ok recs =>
        cases haf : afterOf r.body with
        | error e => simp [utilGetLoop, h, htr, haf]
        | ok a' =>
          cases hh1 : alookup r.headers "x-ratelimit-remaining" with
          | none => simp [utilGetLoop, h, htr, haf, hh1]
          | some x1 =>
            cases hh2 : alookup r.headers "x-ratelimit-reset" with
            | none => simp [utilGetLoop, h, htr, haf, hh1, hh2]
            | some x2 => simp [utilGetLoop, h, htr, haf, hh1, hh2, ih f]
    · simp [utilGetLoop, h]

/-- C2 (amended): `util_get` never inspects the HTTP status — replacing every
response's status by anything whatsoever changes nothing about the run (same
requests, same table, same errors).  A non-success response is processed
exactly like a success; no status-carrying error is ever raised. -/
theorem c2_amended_status_ignored (pages : List Response) (params : Params) (f : Nat → Nat) :
    util_get (pages.map (fun r => ⟨f r.status, r.body, r.headers⟩)) params
      = util_get pages params :=
  utilGetLoop_status_ignored pages f params (J.bool true) [] []

/-- C2 counterexample: a fetch whose only response has HTTP status 500 (not a
success status) and a well-formed listing body is processed without any error:
the fetcher returns the accumulated table instead of failing with a
status-carrying `UpstreamRequestError`. -/
theorem c2_counterexample :
    isSuccessStatus (mkResp 500 1 J.null).status = false
    ∧ (util_get [mkResp 500 1 J.null] []).outcome = Outcome.done [mkRec]
    ∧ (util_get [mkResp 500 1 J.null] []).requests.length = 1 :=
  ⟨rfl, rfl, rfl⟩

/-- `util_get` on a page chain it consumes exactly. -/
theorem util_get_chain_spec (pages : List Response) (params : Params)
    (hch : chain pages = true) :
    util_get pages params =
      ⟨(afterSeq (J.bool true) pages).map (fun a => issuedQuery (insertReplace params "after" a)),
       insertReplace params "after" (lastAfter (J.bool true) pages),
       Outcome.done (pages.flatMap pageRecs)⟩ := by
  have h := utilGetLoop_chain pages hch params (J.bool true) rfl [] []
  simpa [util_get] using h

theorem chain_ne_nil (pages : List Response) (hch : chain pages = true) : pages ≠ [] := by
  intro h
  subst h
  simp [chain] at hch

theorem chain_dropLast_truthy :
    ∀ (pages : List Response), chain pages = true →
    ∀ r ∈ pages.dropLast, jTruthy (cursorD r) = true := by
  intro pages
  induction pages with
  | nil => intro h; simp [chain] at h
  | cons p rest ih =>
    intro hch r hr
    cases rest with
    | nil => simp at hr
    | cons s rest' =>
      simp only [chain, Bool.and_eq_true] at hch
      obtain ⟨hok, hta, hch'⟩ := hch
      rw [dropLast_cons_of_cons] at hr
      have hch2 : chain (s :: rest') = true := by
        simp only [chain, Bool.and_eq_true]
        exact hch'
      rcases List.mem_cons.mp hr with h | h
      · rw [h]; exact hta
      · exact ih hch2 r h

theorem jIsNull_eq_false_of_truthy (a : J) (h : jTruthy a = true) : jIsNull a = false := by
  cases a <;> first | rfl | simp [jTruthy] at h

/-- C1 (amended): on any page sequence whose intermediate cursors are truthy
and whose last cursor is falsy under Python truthiness (null or the empty
string), `util_get` terminates exactly there and returns the accumulated
table; it issues one request per page — never one carrying a null or empty
cursor — and each request after the first carries exactly the cursor
harvested from the previous response. -/
theorem c1_amended_falsy_termination (pages : List Response) (params : Params)
    (hch : chain pages = true) :
    (util_get pages params).outcome = Outcome.done (pages.flatMap pageRecs)
    ∧ (util_get pages params).requests.length = pages.length
    ∧ (∀ q ∈ (util_get pages params).requests,
        ∃ a, alookup q "after" = some a ∧ jTruthy a = true)
    ∧ (util_get pages params).requests.map (fun q => alookup q "after")
        = (J.bool true :: pages.dropLast.map cursorD).map some := by
  have htruthy : ∀ a ∈ afterSeq (J.bool true) pages, jTruthy a = true := by
    intro a ha
    rw [afterSeq] at ha
    rcases List.mem_cons.mp ha with h | h
    · rw [h]; rfl
    · obtain ⟨r, hr, hra⟩ := List.mem_map.mp h
      rw [← hra]
      exact chain_dropLast_truthy pages hch r hr
  have hpos : 0 < pages.length :=
    List.length_pos.mpr (chain_ne_nil pages hch)
  rw [util_get_chain_spec pages params hch]
  refine ⟨rfl, ?_, ?_, ?_⟩
  · simp only [afterSeq, List.length_map, List.length_cons, List.length_dropLast]
    omega
  · intro q hq
    obtain ⟨a, ha, hqa⟩ := List.mem_map.mp hq
    refine ⟨a, ?_, htruthy a ha⟩
    rw [← hqa]
    exact alookup_issuedQuery_insertReplace params "after" a
      (jIsNull_eq_false_of_truthy a (htruthy a ha))
  · rw [List.map_map]
    have : afterSeq (J.bool true) pages = J.bool true :: pages.dropLast.map cursorD := rfl
    rw [← this]
    apply List.map_congr_left
    intro a ha
    exact alookup_issuedQuery_insertReplace params "after" a
      (jIsNull_eq_false_of_truthy a (htruthy a ha))

/-- C1 counterexample: a first page carrying the non-null cursor `""` — the
loop terminates and returns the table after one request instead of continuing
with that cursor, because the loop condition is Python truthiness, not a null
check. -/
theorem c1_counterexample :
    cursorD (mkResp 200 1 (J.str "")) ≠ J.null
    ∧ (util_get [mkResp 200 1 (J.str ""), mkResp 200 1 J.null] []).outcome
        = Outcome.done [mkRec]
    ∧ (util_get [mkResp 200 1 (J.str ""), mkResp 200 1 J.null] []).requests.length = 1 :=
  ⟨fun h => J.noConfusion h, rfl, rfl⟩

/-- Witness for `c1_amended_falsy_termination` on a concrete two-page chain. -/
theorem c1_witness :
    chain c1pages = true
    ∧ ((util_get c1pages subredditParams).outcome = Outcome.done (c1pages.flatMap pageRecs)
    ∧ (util_get c1pages subredditParams).requests.length = c1pages.length
    ∧ (∀ q ∈ (util_get c1pages subredditParams).requests,
        ∃ a, alookup q "after" = some a ∧ jTruthy a = true)
    ∧ (util_get c1pages subredditParams).requests.map (fun q => alookup q "after")
        = (J.bool true :: c1pages.dropLast.map cursorD).map some) :=
  ⟨rfl, c1_amended_falsy_termination c1pages subredditParams rfl⟩

theorem chainN_chain : ∀ (pages : List Response), chainN pages = true → chain pages = true := by
  intro pages
  induction pages with
  | nil => intro h; simp [chainN] at h
  | cons p rest ih =>
    intro hch
    cases rest with
    | nil =>
      simp only [chainN, Bool.and_eq_true] at hch
      obtain ⟨hok, hnull⟩ := hch
      have hcd : cursorD p = J.null := by
        cases h : cursorD p with
        | null => rfl
        | num n => rw [h] at hnull; simp at hnull
        | str s => rw [h] at hnull; simp at hnull
        | bool b => rw [h] at hnull; simp at hnull
        | arr xs => rw [h] at hnull; simp at hnull
        | obj fs => rw [h] at hnull; simp at hnull
      simp only [chain, Bool.and_eq_true]
      exact ⟨hok, by rw [hcd]; rfl⟩
    | cons s rest' =>
      simp only [chainN, Bool.and_eq_true] at hch
      obtain ⟨hok, hta, hch'⟩ := hch
      have hch2 : chainN (s :: rest') = true := by
        simp only [chainN, Bool.and_eq_true]
        exact hch'
      simp only [chain, Bool.and_eq_true]
      exact ⟨hok, hta, by
        have h3 := ih hch2
        simp only [chain, Bool.and_eq_true] at h3
        exact h3⟩

theorem length_flatMap_pageRecs :
    ∀ (l : List Response),
    (l.flatMap pageRecs).length = (l.map (fun r => (pageRecs r).length)).sum := by
  intro l
  induction l with
  | nil => rfl
  | cons r t ih => simp [List.flatMap_cons, ih]

/-- C7: on a finite page sequence whose intermediate cursors are truthy and
whose last cursor is null, `util_get` returns the concatenation of the pages'
normalized records in fetch order — so the table's record count is the sum of
the pages' record counts — after exactly one fetch per page. -/
theorem c7_table_concat (pages : List Response) (params : Params)
    (hch : chainN pages = true) :
    (util_get pages params).outcome = Outcome.done (pages.flatMap pageRecs)
    ∧ (pages.flatMap pageRecs).length = (pages.map (fun r => (pageRecs r).length)).sum
    ∧ (util_get pages params).requests.length = pages.length := by
  have hc := chainN_chain pages hch
  have hpos : 0 < pages.length := List.length_pos.mpr (chain_ne_nil pages hc)
  rw [util_get_chain_spec pages params hc]
  refine ⟨rfl, length_flatMap_pageRecs pages, ?_⟩
  simp only [afterSeq, List.length_map, List.length_cons, List.length_dropLast]
  omega

theorem mem_foldl_dedup :
    ∀ (l acc : List String) (x : String),
    x ∈ l.foldl (fun acc k => if acc.contains k then acc else acc ++ [k]) acc
      ↔ x ∈ acc ∨ x ∈ l := by
  intro l
  induction l with
  | nil => intro acc x; simp
  | cons k t ih =>
    intro acc x
    rw [List.foldl_cons]
    by_cases hc : acc.contains k = true
    · have hk : k ∈ acc := by simpa using hc
      simp only [hc, if_true]
      rw [ih acc x]
      simp only [List.mem_cons]
      constructor
      · rintro (h | h)
        · exact Or.inl h
        · exact Or.inr (Or.inr h)
      · rintro (h | h | h)
        · exact Or.inl h
        · exact Or.inl (h ▸ hk)
        · exact Or.inr h
    · rw [if_neg hc]
      rw [ih (acc ++ [k]) x]
      simp only [List.mem_append, List.mem_singleton, List.mem_cons]
      tauto

theorem mem_dedupKeys (l : List String) (x : String) : x ∈ dedupKeys l ↔ x ∈ l := by
  rw [dedupKeys, mem_foldl_dedup]
  simp

theorem alookup_mem_map_fst {α : Type} :
    ∀ (d : List (String × α)) (k : String) (v : α),
    alookup d k = some v → k ∈ d.map Prod.fst := by
  intro d
  induction d with
  | nil => intro k v h; simp [alookup] at h
  | cons p t ih =>
    intro k v h
    obtain ⟨k0, w⟩ := p
    rw [List.map_cons]
    by_cases h0 : k0 = k
    · exact h0 ▸ List.mem_cons_self _ _
    · simp only [alookup, h0, if_false] at h
      exact List.mem_cons_of_mem _ (ih k v h)

theorem mem_unionKeys (datas : List (List (String × J))) (d : List (String × J))
    (hd : d ∈ datas) (k : String) (v : J) (hv : alookup d k = some v) :
    k ∈ unionKeys datas := by
  rw [unionKeys, mem_dedupKeys]
  exact List.mem_flatMap.mpr ⟨d, hd, alookup_mem_map_fst d k v hv⟩

theorem alookup_rowOf :
    ∀ (keys : List String) (d : List (String × J)) (k : String) (v : J),
    k ∈ keys → alookup d k = some v →
    alookup (rowOf keys d) k = some (some v) := by
  intro keys
  induction keys with
  | nil => intro d k v hm _; simp at hm
  | cons k0 kt ih =>
    intro d k v hm hv
    simp only [rowOf, List.map_cons]
    by_cases h0 : k0 = k
    · subst h0
      simp [alookup, hv]
    · simp only [alookup, h0, if_false]
      rcases List.mem_cons.mp hm with h | h
      · exact absurd h.symm h0
      · exact ih d k v h hv

theorem timestampsOf_forall₂ :
    ∀ (datas : List (List (String × J))) (ts : List LocalInstant),
    timestampsOf datas = Except.ok ts →
    List.Forall₂ (fun d t => ∀ n, alookup d "created_utc" = some (J.num n) →
      t = datetime_fromtimestamp n) datas ts := by
  intro datas
  induction datas with
  | nil =>
    intro ts h
    simp only [timestampsOf] at h
    injection h with h'
    subst h'
    exact List.Forall₂.nil
  | cons d rest ih =>
    intro ts h
    cases hl : alookup d "created_utc" with
    | none =>
      simp only [timestampsOf, hl] at h
      exact Except.noConfusion h
    | some v =>
      cases v with
      | num n =>
        simp only [timestampsOf, hl] at h
        cases hrec : timestampsOf rest with
        | error e => simp only [hrec] at h; exact Except.noConfusion h
        | ok t' =>
          simp only [hrec] at h
          injection h with h'
          subst h'
          refine List.Forall₂.cons ?_ (ih t' hrec)
          intro m hm
          rw [hl] at hm
          injection hm with hm'
          injection hm' with hm''
          rw [hm'']
      | bool b =>
        simp only [timestampsOf, hl] at h
        cases hrec : timestampsOf rest with
        | error e => simp only [hrec] at h; exact Except.noConfusion h
        | ok t' =>
          simp only [hrec] at h
          injection h with h'
          subst h'
          refine List.Forall₂.cons ?_ (ih t' hrec)
          intro m hm
          rw [hl] at hm
          injection hm with hm'
          exact J.noConfusion hm'
      | str s => simp only [timestampsOf, hl] at h; exact Except.noConfusion h
      | null => simp only [timestampsOf, hl] at h; exact Except.noConfusion h
      | arr xs => simp only [timestampsOf, hl] at h; exact Except.noConfusion h
      | obj fs => simp only [timestampsOf, hl] at h; exact Except.noConfusion h

theorem timestampsOf_ok_isSome :
    ∀ (datas : List (List (String × J))) (ts : List LocalInstant),
    timestampsOf datas = Except.ok ts →
    ∀ d ∈ datas, (alookup d "created_utc").isSome = true := by
  intro datas
  induction datas with
  | nil => intro ts h d hd; simp at hd
  | cons d0 rest ih =>
    intro ts h d hd
    cases hl : alookup d0 "created_utc" with
    | none =>
      simp only [timestampsOf, hl] at h
      exact Except.noConfusion h
    | some v =>
      rcases List.mem_cons.mp hd with h0 | hd'
      · rw [h0, hl]; rfl
      · cases v with
        | num n =>
          simp only [timestampsOf, hl] at h
          cases hrec : timestampsOf rest with
          | error e => simp only [hrec] at h; exact Except.noConfusion h
          | ok t' => exact ih t' hrec d hd'
        | bool b =>
          simp only [timestampsOf, hl] at h
          cases hrec : timestampsOf rest with
          | error e => simp only [hrec] at h; exact Except.noConfusion h
          | ok t' => exact ih t' hrec d hd'
        | str s => simp only [timestampsOf, hl] at h; exact Except.noConfusion h
        | null => simp only [timestampsOf, hl] at h; exact Except.noConfusion h
        | arr xs => simp only [timestampsOf, hl] at h; exact Except.noConfusion h
        | obj fs => simp only [timestampsOf, hl] at h; exact Except.noConfusion h

theorem timestampsOf_err_class :
    ∀ (datas : List (List (String × J))) (e : Err),
    timestampsOf datas = Except.error e → isMalformedResponseError e = true := by
  intro datas
  induction datas with
  | nil => intro e h; simp only [timestampsOf] at h; exact Except.noConfusion h
  | cons d rest ih =>
    intro e h
    cases hl : alookup d "created_utc" with
    | none =>
      simp only [timestampsOf, hl] at h
      injection h with h'
      rw [← h']
      rfl
    | some v =>
      cases v with
      | num n =>
        simp only [timestampsOf, hl] at h
        cases hrec : timestampsOf rest with
        | error e' =>
          simp only [hrec] at h
          injection h with h'
          rw [← h']
          exact ih e' hrec
        | ok t' => simp only [hrec] at h; exact Except.noConfusion h
      | bool b =>
        simp only [timestampsOf, hl] at h
        cases hrec : timestampsOf rest with
        | error e' =>
          simp only [hrec] at h
          injection h with h'
          rw [← h']
          exact ih e' hrec
        | ok t' => simp only [hrec] at h; exact Except.noConfusion h
      | str s => simp only [timestampsOf, hl] at h; injection h with h'; rw [← h']; rfl
      | null => simp only [timestampsOf, hl] at h; injection h with h'; rw [← h']; rfl
      | arr xs => simp only [timestampsOf, hl] at h; injection h with h'; rw [← h']; rfl
      | obj fs => simp only [timestampsOf, hl] at h; injection h with h'; rw [← h']; rfl

theorem forall₂_zipWith_rows (keys : List String) :
    ∀ (datas : List (List (String × J))) (ts : List LocalInstant),
    List.Forall₂ (fun d t => ∀ n, alookup d "created_utc" = some (J.num n) →
      t = datetime_fromtimestamp n) datas ts →
    (∀ d ∈ datas, ∀ (k : String) (v : J), alookup d k = some v → k ∈ keys) →
    List.Forall₂ (fun d rec =>
        (∀ n, alookup d "created_utc" = some (J.num n) →
          Rec.timestamp rec = datetime_fromtimestamp n)
        ∧ (∀ (k : String) (v : J), alookup d k = some v →
          alookup (Rec.row rec) k = some (some v)))
      datas
      (List.zipWith (fun d t => { timestamp := t, row := rowOf keys d }) datas ts) := by
  intro datas ts hf
  induction hf with
  | nil => intro _; simp
  | @cons d t rest trest hq hrest ih =>
    intro hkeys
    rw [List.zipWith_cons_cons]
    refine List.Forall₂.cons ⟨?_, ?_⟩ (ih ?_)
    · intro n hn
      exact hq n hn
    · intro k v hv
      exact alookup_rowOf keys d k v (hkeys d (List.mem_cons_self _ _) k v hv) hv
    · intro d' hd' k v hv
      exact hkeys d' (List.mem_cons_of_mem _ hd') k v hv

/-- C5: if the epoch field `created_utc` is absent on any item of the page,
`transform_df` fails, and the failure is in the spec's
`MalformedResponseError` class (the KeyError on the missing column when no
row has the field, or the ValueError/TypeError surfacing from the NaN cell
otherwise). -/
theorem c5_missing_epoch_fails (body : J) (datas : List (List (String × J)))
    (hex : extractDatas body = Except.ok datas)
    (d : List (String × J)) (hd : d ∈ datas)
    (hmiss : alookup d "created_utc" = none) :
    ∃ e, transform_df body = Except.error e ∧ isMalformedResponseError e = true := by
  by_cases hc : (unionKeys datas).contains "created_utc" = true
  · have hmem : "created_utc" ∈ unionKeys datas := by simpa using hc
    cases hts : timestampsOf datas with
    | error e =>
      refine ⟨e, ?_, timestampsOf_err_class datas e hts⟩
      simp [transform_df, hex, hts, hmem]
    | ok ts =>
      exfalso
      have hs := timestampsOf_ok_isSome datas ts hts d hd
      rw [hmiss] at hs
      simp at hs
  · have hnm : "created_utc" ∉ unionKeys datas := by simpa using hc
    refine ⟨Err.keyError "created_utc", ?_, rfl⟩
    simp [transform_df, hex, hnm]

/-- Witness for `c5_missing_epoch_fails`: a one-item page whose payload lacks
`created_utc`. -/
theorem c5_witness :
    extractDatas (mkBody [J.obj [("data", J.obj [("title", J.str "x")])]] J.null)
        = Except.ok [[("title", J.str "x")]]
    ∧ [("title", J.str "x")] ∈ [[("title", J.str "x")]]
    ∧ alookup [("title", J.str "x")] "created_utc" = none
    ∧ ∃ e, transform_df (mkBody [J.obj [("data", J.obj [("title", J.str "x")])]] J.null)
        = Except.error e ∧ isMalformedResponseError e = true :=
  ⟨rfl, List.mem_singleton.mpr rfl, rfl,
    c5_missing_epoch_fails (mkBody [J.obj [("data", J.obj [("title", J.str "x")])]] J.null)
      [[("title", J.str "x")]] rfl [("title", J.str "x")]
      (List.mem_singleton.mpr rfl) rfl⟩

/-- C6: when `transform_df` succeeds, it produces one record per item, in
order; each record whose item carries `created_utc = n` gets
`timestamp = datetime.fromtimestamp n`, and every other field of the item is
passed through unchanged into the record's row. -/
theorem c6_timestamp_and_passthrough (body : J) (datas : List (List (String × J)))
    (recs : List Rec) (hex : extractDatas body = Except.ok datas)
    (htr : transform_df body = Except.ok recs) :
    recs.length = datas.length
    ∧ List.Forall₂ (fun d rec =>
        (∀ n, alookup d "created_utc" = some (J.num n) →
          Rec.timestamp rec = datetime_fromtimestamp n)
        ∧ (∀ (k : String) (v : J), alookup d k = some v →
          alookup (Rec.row rec) k = some (some v))) datas recs := by
  simp only [transform_df, hex] at htr
  by_cases hc : (unionKeys datas).contains "created_utc" = true
  · rw [if_pos hc] at htr
    cases hts : timestampsOf datas with
    | error e => rw [hts] at htr; exact Except.noConfusion htr
    | ok ts =>
      rw [hts] at htr
      injection htr with h'
      have hlen := (timestampsOf_forall₂ datas ts hts).length_eq
      subst h'
      constructor
      · rw [List.length_zipWith, ← hlen, Nat.min_self]
      · exact forall₂_zipWith_rows (unionKeys datas) datas ts
          (timestampsOf_forall₂ datas ts hts)
          (fun d hd k v hv => mem_unionKeys datas d hd k v hv)
  · rw [if_neg hc] at htr
    exact Except.noConfusion htr

/-- Witness for `c6_timestamp_and_passthrough` on a concrete item carrying
`created_utc = 1700000000` and one extra field. -/
theorem c6_witness :
    transform_df c6body = Except.ok [c6rec]
    ∧ c6rec.timestamp = datetime_fromtimestamp 1700000000
    ∧ alookup c6rec.row "title" = some (some (J.str "hello")) := by
  have h := c6_timestamp_and_passthrough c6body
    [[("created_utc", J.num 1700000000), ("title", J.str "hello")]] [c6rec] rfl rfl
  have h2 := List.forall₂_cons.mp h.2
  exact ⟨rfl, h2.1.1 1700000000 rfl, h2.1.2 "title" (J.str "hello") rfl⟩

theorem listIndex_eq_none (l : List String) (s : String) (h : s ∉ l) :
    listIndex l s = none := by
  induction l with
  | nil => rfl
  | cons x t ih =>
    have hx : ¬x = s := fun hxs => h (hxs ▸ List.mem_cons_self x t)
    have ht : s ∉ t := fun hst => h (List.mem_cons_of_mem x hst)
    simp only [listIndex, hx, if_false, ih ht, Option.map_none']

/-- C8: a starting window absent from
`["all", "year", "month", "week", "day", "hour"]` makes `subreddit_top` fail
before any fetch, with the error `list.index` raises — the spec's
`InvalidWindowError`. -/
theorem c8_invalid_window (serve : String → List Response) (upto : String)
    (h : upto ∉ top_list) :
    subreddit_top serve upto = ⟨[], Outcome.failed (Err.notInList upto)⟩
    ∧ isInvalidWindowError (Err.notInList upto) = true := by
  constructor
  · simp only [subreddit_top, listIndex_eq_none top_list upto h]
  · rfl

/-- Witness for `c8_invalid_window` at the unknown window `"fortnight"`. -/
theorem c8_witness :
    "fortnight" ∉ top_list
    ∧ (subreddit_top (fun _ => []) "fortnight"
        = ⟨[], Outcome.failed (Err.notInList "fortnight")⟩
    ∧ isInvalidWindowError (Err.notInList "fortnight") = true) :=
  ⟨by decide, c8_invalid_window (fun _ => []) "fortnight" (by decide)⟩

theorem topLoop_windows_take :
    ∀ (ws : List String) (serve : String → List Response) (acc : List Rec)
      (aw : List String),
    ∃ k, (topLoop serve ws acc aw).windows = aw ++ ws.take k := by
  intro ws
  induction ws with
  | nil => intro serve acc aw; exact ⟨0, by simp [topLoop]⟩
  | cons w rest ih =>
    intro serve acc aw
    cases ho : (util_get (serve w) (topParams w)).outcome with
    | ranOut => exact ⟨1, by simp [topLoop, ho]⟩
    | failed e => exact ⟨1, by simp [topLoop, ho]⟩
    | done tbl =>
      by_cases hlt : tbl.length < 900
      · exact ⟨1, by simp [topLoop, ho, hlt]⟩
      · obtain ⟨k, hk⟩ := ih serve (acc ++ tbl) (aw ++ [w])
        refine ⟨k + 1, ?_⟩
        simp only [topLoop, ho, hlt, if_false, hk, List.take_succ_cons, List.append_assoc,
          List.singleton_append]

theorem topLoop_windows_full :
    ∀ (ws : List String) (serve : String → List Response) (acc : List Rec)
      (aw : List String),
    (∀ w ∈ ws, ∃ t, (util_get (serve w) (topParams w)).outcome = Outcome.done t
      ∧ 900 ≤ t.length) →
    (topLoop serve ws acc aw).windows = aw ++ ws := by
  intro ws
  induction ws with
  | nil => intro serve acc aw _; simp [topLoop]
  | cons w rest ih =>
    intro serve acc aw hfull
    obtain ⟨t, ht, hge⟩ := hfull w (List.mem_cons_self _ _)
    have hnlt : ¬t.length < 900 := Nat.not_lt.mpr hge
    have htail : ∀ v ∈ rest, ∃ t, (util_get (serve v) (topParams v)).outcome = Outcome.done t
        ∧ 900 ≤ t.length := fun v hv => hfull v (List.mem_cons_of_mem _ hv)
    simp only [topLoop, ht, hnlt, if_false, ih serve (acc ++ t) (aw ++ [w]) htail,
      List.append_assoc, List.singleton_append]

theorem topLoop_break :
    ∀ (ws : List String) (serve : String → List Response) (w : String) (t : List Rec)
      (acc : List Rec) (aw : List String),
    (util_get (serve w) (topParams w)).outcome = Outcome.done t →
    t.length < 900 → w ∉ aw →
    w ∈ (topLoop serve ws acc aw).windows →
    (∃ pre, (topLoop serve ws acc aw).windows = pre ++ [w])
    ∧ (∃ pre, (topLoop serve ws acc aw).outcome = Outcome.done (pre ++ t)) := by
  intro ws
  induction ws with
  | nil =>
    intro serve w t acc aw hw hlt hnaw hmem
    simp [topLoop] at hmem
    exact absurd hmem hnaw
  | cons v rest ih =>
    intro serve w t acc aw hw hlt hnaw hmem
    cases ho : (util_get (serve v) (topParams v)).outcome with
    | ranOut =>
      simp only [topLoop, ho] at hmem
      have hwv : w = v := by
        rcases List.mem_append.mp hmem with h | h
        · exact absurd h hnaw
        · simpa using h
      subst hwv
      rw [hw] at ho
      exact Outcome.noConfusion ho
    | failed e =>
      simp only [topLoop, ho] at hmem
      have hwv : w = v := by
        rcases List.mem_append.mp hmem with h | h
        · exact absurd h hnaw
        · simpa using h
      subst hwv
      rw [hw] at ho
      exact Outcome.noConfusion ho
    | done tbl =>
      by_cases hbr : tbl.length < 900
      · simp only [topLoop, ho, hbr, if_true] at hmem ⊢
        have hwv : w = v := by
          rcases List.mem_append.mp hmem with h | h
          · exact absurd h hnaw
          · simpa using h
        subst hwv
        rw [hw] at ho
        injection ho with ho'
        subst ho'
        exact ⟨⟨aw, rfl⟩, ⟨acc, rfl⟩⟩
      · have hwv : ¬w = v := by
          intro h
          subst h
          rw [hw] at ho
          injection ho with ho'
          rw [ho'] at hlt
          exact hbr hlt
        simp only [topLoop, ho, hbr, if_false] at hmem ⊢
        refine ih serve w t (acc ++ tbl) (aw ++ [v]) hw hlt ?_ hmem
        intro hmm
        rcases List.mem_append.mp hmm with h | h
        · exact hnaw h
        · exact hwv (by simpa using h)

/-- C3: if some fetched window's table has fewer than 900 records, the window
loop of `subreddit_top` breaks there: that window is the last one fetched (no
finer window is ever fetched), and its records are still appended to the
returned table. -/
theorem c3_early_stop (serve : String → List Response) (upto w : String) (t : List Rec)
    (hw : (util_get (serve w) (topParams w)).outcome = Outcome.done t)
    (hlt : t.length < 900)
    (hmem : w ∈ (subreddit_top serve upto).windows) :
    (∃ pre, (subreddit_top serve upto).windows = pre ++ [w])
    ∧ (∃ pre, (subreddit_top serve upto).outcome = Outcome.done (pre ++ t)) := by
  cases hi : listIndex top_list upto with
  | none =>
    simp only [subreddit_top, hi] at hmem
    simp at hmem
  | some i =>
    simp only [subreddit_top, hi] at hmem ⊢
    exact topLoop_break (top_list.drop i) serve w t [] [] hw hlt (by simp) hmem

/-- Witness for `c3_early_stop`: starting at `"month"`, the month window
returns 1 < 900 records, so `"month"` is the last window fetched and its
record is in the result. -/
theorem c3_witness :
    (util_get (serveSmall "month") (topParams "month")).outcome = Outcome.done [mkRec]
    ∧ [mkRec].length < 900
    ∧ "month" ∈ (subreddit_top serveSmall "month").windows
    ∧ ((∃ pre, (subreddit_top serveSmall "month").windows = pre ++ ["month"])
      ∧ (∃ pre, (subreddit_top serveSmall "month").outcome
          = Outcome.done (pre ++ [mkRec]))) :=
  ⟨rfl, by decide, by decide,
    c3_early_stop serveSmall "month" "month" [mkRec] rfl (by decide) (by decide)⟩

/-- C4: `subreddit_top` iterates the window list from the position of the
starting window: the fetched windows are always an order-preserving initial
segment of `top_list.drop i` (so earlier, coarser windows are never touched),
and when no window triggers the early stop the fetched windows are exactly
`top_list.drop i`, down to `"hour"` inclusive. -/
theorem c4_window_schedule (serve : String → List Response) (upto : String) (i : Nat)
    (hi : listIndex top_list upto = some i) :
    (∃ k, (subreddit_top serve upto).windows = (top_list.drop i).take k)
    ∧ ((∀ w ∈ top_list.drop i,
        ∃ t, (util_get (serve w) (topParams w)).outcome = Outcome.done t ∧ 900 ≤ t.length) →
      (subreddit_top serve upto).windows = top_list.drop i) := by
  constructor
  · obtain ⟨k, hk⟩ := topLoop_windows_take (top_list.drop i) serve [] []
    refine ⟨k, ?_⟩
    simp only [subreddit_top, hi]
    simpa using hk
  · intro hfull
    simp only [subreddit_top, hi]
    simpa using topLoop_windows_full (top_list.drop i) serve [] [] hfull

theorem extractDatas_mkBody (cs : List J) (a : J) :
    extractDatas (mkBody cs a) = childrenData cs := rfl

theorem afterOf_mkBody (cs : List J) (a : J) : afterOf (mkBody cs a) = Except.ok a := rfl

theorem cursorD_mkResp (st k : Nat) (a : J) : cursorD (mkResp st k a) = a := rfl

theorem foldl_dedup_replicate (k : String) :
    ∀ (m : Nat) (acc : List String), acc.contains k = true →
    (List.replicate m k).foldl
      (fun acc k => if acc.contains k then acc else acc ++ [k]) acc = acc := by
  intro m
  induction m with
  | zero => intro acc _; rfl
  | succ m ih =>
    intro acc h
    rw [List.replicate_succ, List.foldl_cons, if_pos h]
    exact ih acc h

theorem dedupKeys_replicate (n : Nat) (k : String) :
    dedupKeys (List.replicate (n + 1) k) = [k] := by
  rw [dedupKeys, List.replicate_succ, List.foldl_cons]
  rw [if_neg (by simp)]
  rw [List.nil_append]
  exact foldl_dedup_replicate k n [k] (by simp)

theorem flatMap_fst_replicate (n : Nat) (k : String) (v : J) :
    (List.replicate n [(k, v)]).flatMap (fun d => d.map Prod.fst)
      = List.replicate n k := by
  induction n with
  | zero => rfl
  | succ n ih => simp [List.replicate_succ, ih]

theorem childrenData_replicate (n : Nat) (e : Int) :
    childrenData (List.replicate n (mkItem e))
      = Except.ok (List.replicate n [("created_utc", J.num e)]) := by
  induction n with
  | zero => rfl
  | succ n ih =>
    have hd : childData (mkItem e) = Except.ok [("created_utc", J.num e)] := rfl
    simp [List.replicate_succ, childrenData, hd, ih]

theorem timestampsOf_replicate (n : Nat) (e : Int) :
    timestampsOf (List.replicate n [("created_utc", J.num e)])
      = Except.ok (List.replicate n (datetime_fromtimestamp e)) := by
  induction n with
  | zero => rfl
  | succ n ih =>
    have hl : alookup [("created_utc", J.num e)] "created_utc" = some (J.num e) := rfl
    simp [List.replicate_succ, timestampsOf, hl, ih]

theorem transform_df_mkBody_replicate (n : Nat) (e : Int) (a : J) :
    transform_df (mkBody (List.replicate (n + 1) (mkItem e)) a)
      = Except.ok (List.replicate (n + 1)
          { timestamp := datetime_fromtimestamp e,
            row := [("created_utc", some (J.num e))] }) := by
  have hex : extractDatas (mkBody (List.replicate (n + 1) (mkItem e)) a)
      = Except.ok (List.replicate (n + 1) [("created_utc", J.num e)]) := by
    rw [extractDatas_mkBody, childrenData_replicate]
  have hkeys : unionKeys (List.replicate (n + 1) [("created_utc", J.num e)])
      = ["created_utc"] := by
    rw [unionKeys, flatMap_fst_replicate, dedupKeys_replicate]
  have hrow : rowOf ["created_utc"] [("created_utc", J.num e)]
      = [("created_utc", some (J.num e))] := rfl
  simp only [transform_df, hex, hkeys, timestampsOf_replicate]
  rw [if_pos (by simp)]
  simp [List.zipWith_replicate', hrow]

theorem pageRecs_mkResp (st n : Nat) (a : J) :
    pageRecs (mkResp st (n + 1) a) = List.replicate (n + 1) mkRec := by
  have hb : (mkResp st (n + 1) a).body
      = mkBody (List.replicate (n + 1) (mkItem 1700000000)) a := rfl
  rw [pageRecs, hb, transform_df_mkBody_replicate]
  rfl

theorem pageOkF_mkResp (st n : Nat) (a : J) : pageOkF (mkResp st (n + 1) a) = true := by
  have hb : (mkResp st (n + 1) a).body
      = mkBody (List.replicate (n + 1) (mkItem 1700000000)) a := rfl
  have hh : (mkResp st (n + 1) a).headers = rlHeaders := rfl
  rw [pageOkF, hb, hh, transform_df_mkBody_replicate, afterOf_mkBody]
  rfl

theorem chain_mkResp_null (st n : Nat) : chain [mkResp st (n + 1) J.null] = true := by
  simp only [chain, Bool.and_eq_true]
  refine ⟨pageOkF_mkResp st n J.null, ?_⟩
  rw [cursorD_mkResp]
  rfl

/-- Witness for `c4_window_schedule`: starting at `"month"` with no window
below the threshold, exactly `["month", "week", "day", "hour"]` are fetched,
in order — `"all"` and `"year"` are never touched. -/
theorem c4_witness :
    listIndex top_list "month" = some 2
    ∧ (subreddit_top serve900 "month").windows = ["month", "week", "day", "hour"] := by
  have hch : chain [mkResp 200 900 J.null] = true := chain_mkResp_null 200 899
  have h9 : pageRecs (mkResp 200 900 J.null) = List.replicate 900 mkRec :=
    pageRecs_mkResp 200 899 J.null
  have houtcome : ∀ w : String, (util_get (serve900 w) (topParams w)).outcome
      = Outcome.done (List.replicate 900 mkRec) := by
    intro w
    rw [show serve900 w = [mkResp 200 900 J.null] from rfl]
    rw [util_get_chain_spec [mkResp 200 900 J.null] (topParams w) hch]
    simp [h9]
  refine ⟨rfl, ?_⟩
  have hfull : ∀ w ∈ top_list.drop 2,
      ∃ t, (util_get (serve900 w) (topParams w)).outcome = Outcome.done t
        ∧ 900 ≤ t.length := by
    intro w _
    exact ⟨List.replicate 900 mkRec, houtcome w, by simp⟩
  have h := (c4_window_schedule serve900 "month" 2 rfl).2 hfull
  rw [h]
  rfl

/-- Witness for `c7_table_concat` on the spec's 100 + 40 scenario: a table of
140 records from exactly 2 fetches. -/
theorem c7_witness :
    chainN c7pages = true
    ∧ ((util_get c7pages subredditParams).outcome = Outcome.done (c7pages.flatMap pageRecs)
    ∧ (c7pages.flatMap pageRecs).length = (c7pages.map (fun r => (pageRecs r).length)).sum
    ∧ (util_get c7pages subredditParams).requests.length = c7pages.length)
    ∧ (c7pages.flatMap pageRecs).length = 140
    ∧ c7pages.length = 2 := by
  have h1 : pageOkF (mkResp 200 100 (J.str "x")) = true := pageOkF_mkResp 200 99 (J.str "x")
  have h2 : pageOkF (mkResp 200 40 J.null) = true := pageOkF_mkResp 200 39 J.null
  have hch : chainN c7pages = true := by
    simp only [c7pages, chainN, Bool.and_eq_true]
    exact ⟨h1, by rw [cursorD_mkResp]; rfl, h2, by rw [cursorD_mkResp]⟩
  have hr1 : pageRecs (mkResp 200 100 (J.str "x")) = List.replicate 100 mkRec :=
    pageRecs_mkResp 200 99 (J.str "x")
  have hr2 : pageRecs (mkResp 200 40 J.null) = List.replicate 40 mkRec :=
    pageRecs_mkResp 200 39 J.null
  refine ⟨hch, c7_table_concat c7pages subredditParams hch, ?_, rfl⟩
  simp [c7pages, hr1, hr2]
